import Mathlib

/-!
# Faucet instruction codec: verification of the spec against the source

Shallow embedding of `src/src/program/src/instruction.rs` from the
`sql-token-faucet` repository: the `FaucetInstruction` enum with its
`pack` / `unpack` (and the `unpack_pubkey_option` / `pack_pubkey_option`
helpers), byte buffers modelled as `List Nat` with each byte below 256,
`u64` as `Nat` below `2^64`, and the fallible decoder as `Except`.
-/

namespace Faucet

/-- A Solana public key: `Pubkey::new` takes the 32 raw bytes verbatim and
`to_bytes` returns them; we model it as the raw byte list itself. -/
abbrev Pubkey := List Nat

/-- Modelled from the spec: the error enum `FaucetError` lives in the
repository's `error.rs`, which is not part of the codec source; the spec's
§7 names `InvalidInstruction` as the single error kind relevant to the
codec, and `instruction.rs` constructs no other variant. -/
inductive FaucetError
  | invalidInstruction
  deriving DecidableEq, Repr

/-- The `FaucetInstruction` enum of `instruction.rs`: `COption<Pubkey>`
becomes `Option Pubkey` and `u64` becomes `Nat` (bounded by `2^64` in the
validity predicate below). -/
inductive FaucetInstruction
  | initFaucet (admin : Option Pubkey) (amount : Nat)
  | mintTokens (amount : Nat)
  | closeFaucet
  deriving DecidableEq, Repr

/-- `u64::to_le_bytes`, generalised to `w` little-endian bytes. -/
def natToLe (w n : Nat) : List Nat :=
  match w with
  | 0 => []
  | w + 1 => n % 256 :: natToLe w (n / 256)

/-- `u64::from_le_bytes` on a little-endian byte list. -/
def leToNat : List Nat → Nat
  | [] => 0
  | b :: bs => b + 256 * leToNat bs

/-- The amount sub-parse of `unpack`:
`rest.get(..8).and_then(|s| s.try_into().ok()).map(u64::from_le_bytes)`.
`get(..8)` returns the first 8 bytes exactly when at least 8 remain. -/
def readU64 (l : List Nat) : Option Nat :=
  if 8 ≤ l.length then some (leToNat (l.take 8)) else none

/-- `FaucetInstruction::unpack_pubkey_option`: one discriminant byte, then
for discriminant 1 at least 32 key bytes; returns the decoded option and
the unconsumed tail. -/
def unpack_pubkey_option (input : List Nat) :
    Except FaucetError (Option Pubkey × List Nat) :=
  match input with
  | [] => .error .invalidInstruction
  | d :: rest =>
    if d = 0 then .ok (none, rest)
    else if d = 1 ∧ 32 ≤ rest.length then .ok (some (rest.take 32), rest.drop 32)
    else .error .invalidInstruction

/-- `FaucetInstruction::unpack`: split off the tag byte (empty input fails),
then dispatch on tag 0 / 1 / 2, any other tag failing. -/
def unpack (input : List Nat) : Except FaucetError FaucetInstruction :=
  match input with
  | [] => .error .invalidInstruction
  | tag :: rest =>
    if tag = 0 then
      match unpack_pubkey_option rest with
      | .error e => .error e
      | .ok (admin, rest2) =>
        match readU64 rest2 with
        | none => .error .invalidInstruction
        | some amount => .ok (.initFaucet admin amount)
    else if tag = 1 then
      match readU64 rest with
      | none => .error .invalidInstruction
      | some amount => .ok (.mintTokens amount)
    else if tag = 2 then .ok .closeFaucet
    else .error .invalidInstruction

/-- `FaucetInstruction::pack_pubkey_option`: discriminant byte 1 followed by
the raw key bytes when present, the single byte 0 when absent. -/
def pack_pubkey_option : Option Pubkey → List Nat
  | some key => 1 :: key
  | none => [0]

/-- `FaucetInstruction::pack`: tag byte, then the variant's fields. -/
def pack : FaucetInstruction → List Nat
  | .initFaucet admin amount => 0 :: (pack_pubkey_option admin ++ natToLe 8 amount)
  | .mintTokens amount => 1 :: natToLe 8 amount
  | .closeFaucet => [2]

/-- A `FaucetInstruction` value as Rust can represent it: amounts are `u64`
and an admin key is exactly 32 bytes, each a `u8`. -/
def ValidInstr : FaucetInstruction → Prop
  | .initFaucet admin amount =>
      amount < 2 ^ 64 ∧
      ∀ key, admin = some key → key.length = 32 ∧ ∀ b ∈ key, b < 256
  | .mintTokens amount => amount < 2 ^ 64
  | .closeFaucet => True

/-- The minimum encoded length of each variant's layout, as listed in the
truncation-rejection property: 1 byte of tag, plus 1 discriminant byte and
optionally 32 key bytes for `InitFaucet`, plus 8 amount bytes for
`InitFaucet` and `MintTokens`. -/
def minLen : FaucetInstruction → Nat
  | .initFaucet none _ => 10
  | .initFaucet (some _) _ => 42
  | .mintTokens _ => 9
  | .closeFaucet => 1

/-! ### Shared lemmas about the byte-level helpers -/

theorem length_natToLe (w n : Nat) : (natToLe w n).length = w := by
  induction w generalizing n with
  | zero => rfl
  | succ k ih => simp [natToLe, ih]

theorem leToNat_natToLe (w n : Nat) : leToNat (natToLe w n) = n % 256 ^ w := by
  induction w generalizing n with
  | zero => simp [natToLe, leToNat, Nat.mod_one]
  | succ k ih =>
    simp only [natToLe, leToNat, ih]
    rw [Nat.pow_succ, Nat.mul_comm (256 ^ k) 256, Nat.mod_mul]

theorem readU64_natToLe (n : Nat) (tail : List Nat) (h : n < 2 ^ 64) :
    readU64 (natToLe 8 n ++ tail) = some n := by
  have hlen : (natToLe 8 n).length = 8 := length_natToLe 8 n
  have htake : (natToLe 8 n ++ tail).take 8 = natToLe 8 n := by
    rw [List.take_append_of_le_length (by omega), List.take_of_length_le (by omega)]
  rw [readU64, if_pos (by simp [hlen]), htake, leToNat_natToLe]
  have : (256 : Nat) ^ 8 = 2 ^ 64 := by norm_num
  rw [this, Nat.mod_eq_of_lt h]

/-! ### The claims -/

/-- Claim C1: round-trip law — for every representable `FaucetInstruction`
value `c` (admin absent or present with a 32-byte key, any `u64` amount),
`unpack (pack c)` succeeds and returns `c`. -/
theorem claim_C1_roundtrip (c : FaucetInstruction) (h : ValidInstr c) :
    unpack (pack c) = .ok c := by
  cases c with
  | closeFaucet => rfl
  | mintTokens amount =>
    have hr : readU64 (natToLe 8 amount) = some amount := by
      simpa using readU64_natToLe amount [] h
    simp [pack, unpack, hr]
  | initFaucet admin amount =>
    obtain ⟨ha, hadmin⟩ := h
    have hr : readU64 (natToLe 8 amount) = some amount := by
      simpa using readU64_natToLe amount [] ha
    cases admin with
    | none => simp [pack, pack_pubkey_option, unpack, unpack_pubkey_option, hr]
    | some key =>
      obtain ⟨hklen, -⟩ := hadmin key rfl
      have h32 : 32 ≤ List.length key + (natToLe 8 amount).length := by
        simp [hklen, length_natToLe]
      have htake : (key ++ natToLe 8 amount).take 32 = key := by
        rw [List.take_append_of_le_length (by omega),
          List.take_of_length_le (by omega)]
      have hdrop : (key ++ natToLe 8 amount).drop 32 = natToLe 8 amount := by
        rw [List.drop_append_of_le_length (by omega),
          List.drop_eq_nil_of_le (by omega), List.nil_append]
      have hpo : unpack_pubkey_option (1 :: (key ++ natToLe 8 amount)) =
          .ok (some key, natToLe 8 amount) := by
        simp [unpack_pubkey_option, h32, htake, hdrop]
      simp [pack, pack_pubkey_option, unpack, hpo, hr]

theorem claim_C1_roundtrip_witness :
    ValidInstr (.initFaucet (some (List.replicate 32 1)) 775) ∧
      unpack (pack (.initFaucet (some (List.replicate 32 1)) 775)) =
        .ok (.initFaucet (some (List.replicate 32 1)) 775) := by
  have hv : ValidInstr (.initFaucet (some (List.replicate 32 1)) 775) := by
    refine ⟨by norm_num, ?_⟩
    intro key hk
    injection hk with hk
    subst hk
    refine ⟨by simp, ?_⟩
    intro b hb
    have := List.eq_of_mem_replicate hb
    omega
  exact ⟨hv, claim_C1_roundtrip _ hv⟩

/-- Claim C2: totality of decode — for every input byte sequence, `unpack`
returns either `Ok` with a fully-formed `FaucetInstruction` or the
`InvalidInstruction` error; there is no third outcome. -/
theorem claim_C2_unpack_total (input : List Nat) :
    (∃ c, unpack input = .ok c) ∨ unpack input = .error .invalidInstruction := by
  cases h : unpack input with
  | ok c => exact Or.inl ⟨c, rfl⟩
  | error e => cases e; exact Or.inr rfl

/-- Claim C3 counterexample: the spec's expected sequence
`[1, 132, 3, 0, 0, 0, 0, 0]` has only 8 bytes, but `pack` on `MintTokens`
always emits 9 (one tag byte plus all 8 little-endian amount bytes). -/
theorem claim_C3_pack_mint_900_cex :
    pack (.mintTokens 900) ≠ [1, 132, 3, 0, 0, 0, 0, 0] := by decide

/-- Claim C3 (amended): `pack` applied to `MintTokens` with amount 900
returns exactly the byte sequence `[1, 132, 3, 0, 0, 0, 0, 0, 0]` — the tag
byte 1 followed by all eight little-endian bytes of 900. -/
theorem claim_C3_pack_mint_900 :
    pack (.mintTokens 900) = [1, 132, 3, 0, 0, 0, 0, 0, 0] := by decide

/-- Claim C5: for every input starting with tag byte 0, if the admin
discriminant is neither 0 nor 1, or it is 1 but fewer than 32 bytes follow
it, `unpack` fails with `InvalidInstruction` regardless of further bytes. -/
theorem claim_C5_bad_discriminant (d : Nat) (rest : List Nat)
    (h : (d ≠ 0 ∧ d ≠ 1) ∨ (d = 1 ∧ rest.length < 32)) :
    unpack (0 :: d :: rest) = .error .invalidInstruction := by
  rcases h with ⟨h0, h1⟩ | ⟨h1, hlen⟩
  · simp [unpack, unpack_pubkey_option, h0, h1]
  · subst h1
    have hcond : ¬(32 ≤ rest.length) := by omega
    simp [unpack, unpack_pubkey_option, hcond]

theorem claim_C5_bad_discriminant_witness :
    (((2 : Nat) ≠ 0 ∧ (2 : Nat) ≠ 1) ∨ ((2 : Nat) = 1 ∧ ([] : List Nat).length < 32)) ∧
      unpack [0, 2] = .error .invalidInstruction :=
  ⟨Or.inl (by decide), claim_C5_bad_discriminant 2 [] (Or.inl (by decide))⟩

/-- Claim C6: for every input whose first byte is 3 or greater, `unpack`
fails with the `InvalidInstruction` error. -/
theorem claim_C6_unknown_tag (tag : Nat) (rest : List Nat) (h : 3 ≤ tag) :
    unpack (tag :: rest) = .error .invalidInstruction := by
  have h0 : tag ≠ 0 := by omega
  have h1 : tag ≠ 1 := by omega
  have h2 : tag ≠ 2 := by omega
  simp [unpack, h0, h1, h2]

theorem claim_C6_unknown_tag_witness :
    3 ≤ 3 ∧ unpack [3] = .error .invalidInstruction :=
  ⟨by decide, claim_C6_unknown_tag 3 [] (by decide)⟩

/-- Claim C7: `unpack` applied to the empty byte sequence fails with the
`InvalidInstruction` error. -/
theorem claim_C7_empty_input : unpack [] = .error .invalidInstruction := rfl

/-- Claim C8: for every byte sequence beginning with tag byte 2, regardless
of the bytes that follow, `unpack` succeeds and returns `CloseFaucet`. -/
theorem claim_C8_close_trailing (rest : List Nat) :
    unpack (2 :: rest) = .ok .closeFaucet := by
  simp [unpack]

/-- Claim C9: `unpack [0, 0, 7, 0, 0, 0, 0, 0, 0, 0]` yields `InitFaucet`
with admin absent and amount 7, and `unpack` of `[0, 1]` followed by 32
bytes of value 1 and the little-endian encoding of 775 yields `InitFaucet`
with the all-0x01 admin key and amount 775. -/
theorem claim_C9_optional_key_determinism :
    unpack [0, 0, 7, 0, 0, 0, 0, 0, 0, 0] = .ok (.initFaucet none 7) ∧
      unpack (0 :: 1 :: (List.replicate 32 1 ++ [7, 3, 0, 0, 0, 0, 0, 0])) =
        .ok (.initFaucet (some (List.replicate 32 1)) 775) := by
  constructor <;> rfl

theorem readU64_append_of_ok (l extra : List Nat) (n : Nat)
    (h : readU64 l = some n) : readU64 (l ++ extra) = some n := by
  rw [readU64] at h ⊢
  by_cases hl : 8 ≤ l.length
  · rw [if_pos hl] at h
    rw [if_pos (by simp; omega), List.take_append_of_le_length hl]
    exact h
  · rw [if_neg hl] at h
    exact absurd h (by simp)

theorem unpack_pubkey_option_append_of_ok (l extra : List Nat)
    (a : Option Pubkey) (r : List Nat)
    (h : unpack_pubkey_option l = .ok (a, r)) :
    unpack_pubkey_option (l ++ extra) = .ok (a, r ++ extra) := by
  match l with
  | [] => simp [unpack_pubkey_option] at h
  | d :: rest =>
    rw [unpack_pubkey_option] at h
    rw [List.cons_append, unpack_pubkey_option]
    by_cases h0 : d = 0
    · rw [if_pos h0] at h ⊢
      obtain ⟨ha, hr⟩ : a = none ∧ r = rest := by
        constructor <;> · injection h with h'; injection h' with h1 h2; simp [h1.symm, h2.symm]
      subst ha; subst hr; rfl
    · rw [if_neg h0] at h ⊢
      by_cases h1 : d = 1 ∧ 32 ≤ rest.length
      · rw [if_pos h1] at h
        rw [if_pos (by constructor; exact h1.1; simp; omega)]
        obtain ⟨ha, hr⟩ : a = some (rest.take 32) ∧ r = rest.drop 32 := by
          constructor <;> · injection h with h'; injection h' with hx hy; simp [hx.symm, hy.symm]
        subst ha; subst hr
        rw [List.take_append_of_le_length h1.2, List.drop_append_of_le_length h1.2]
      · rw [if_neg h1] at h
        exact absurd h (by simp)

/-- Claim C10: prefix-extension tolerance — whenever `unpack b` succeeds
with value `c`, appending arbitrary extra bytes to `b` still makes `unpack`
succeed with the same `c`; trailing bytes are ignored for every variant. -/
theorem claim_C10_prefix_extension (b extra : List Nat) (c : FaucetInstruction)
    (h : unpack b = .ok c) : unpack (b ++ extra) = .ok c := by
  match b with
  | [] => simp [unpack] at h
  | tag :: rest =>
    rw [unpack] at h
    rw [List.cons_append, unpack]
    by_cases h0 : tag = 0
    · rw [if_pos h0] at h ⊢
      cases hpo : unpack_pubkey_option rest with
      | error e => rw [hpo] at h; exact absurd h (by simp)
      | ok pr =>
        obtain ⟨a, r⟩ := pr
        rw [hpo] at h
        rw [unpack_pubkey_option_append_of_ok rest extra a r hpo]
        dsimp only at h ⊢
        cases hr : readU64 r with
        | none => rw [hr] at h; exact absurd h (by simp)
        | some n =>
          rw [hr] at h
          rw [readU64_append_of_ok r extra n hr]
          exact h
    · rw [if_neg h0] at h ⊢
      by_cases h1 : tag = 1
      · rw [if_pos h1] at h ⊢
        cases hr : readU64 rest with
        | none => rw [hr] at h; exact absurd h (by simp)
        | some n =>
          rw [hr] at h
          rw [readU64_append_of_ok rest extra n hr]
          exact h
      · rw [if_neg h1] at h ⊢
        by_cases h2 : tag = 2
        · rw [if_pos h2] at h ⊢; exact h
        · rw [if_neg h2] at h; exact absurd h (by simp)

theorem claim_C10_prefix_extension_witness :
    unpack [1, 7, 3, 0, 0, 0, 0, 0, 0] = .ok (.mintTokens 775) ∧
      unpack ([1, 7, 3, 0, 0, 0, 0, 0, 0] ++ [9, 9, 9]) = .ok (.mintTokens 775) :=
  ⟨rfl, claim_C10_prefix_extension _ [9, 9, 9] _ rfl⟩

theorem unpack_mint_short (rest : List Nat) (h : rest.length < 8) :
    unpack (1 :: rest) = .error .invalidInstruction := by
  have h8 : ¬8 ≤ rest.length := by omega
  simp [unpack, readU64, h8]

theorem unpack_init_none_short (rest : List Nat) (h : rest.length < 8) :
    unpack (0 :: 0 :: rest) = .error .invalidInstruction := by
  have h8 : ¬8 ≤ rest.length := by omega
  simp [unpack, unpack_pubkey_option, readU64, h8]

theorem unpack_init_some_short (rest : List Nat) (h : rest.length < 40) :
    unpack (0 :: 1 :: rest) = .error .invalidInstruction := by
  by_cases h32 : 32 ≤ rest.length
  · have h8 : ¬8 ≤ rest.length - 32 := by omega
    simp [unpack, unpack_pubkey_option, h32, readU64, List.length_drop, h8]
  · simp [unpack, unpack_pubkey_option, h32]

theorem unpack_take_pack_short (c : FaucetInstruction) (k : Nat)
    (hk : k < minLen c) :
    unpack ((pack c).take k) = .error .invalidInstruction := by
  cases c with
  | closeFaucet =>
    have hk0 : k = 0 := by simpa [minLen] using hk
    subst hk0; rfl
  | mintTokens a =>
    rcases k with _ | j
    · rfl
    · have hj : j < 8 := by simp [minLen] at hk; omega
      simp only [pack, List.take_succ_cons]
      exact unpack_mint_short _ (by rw [List.length_take, length_natToLe]; omega)
  | initFaucet admin a =>
    cases admin with
    | none =>
      rcases k with _ | _ | j
      · rfl
      · rfl
      · have hj : j < 8 := by simp [minLen] at hk; omega
        simp only [pack, pack_pubkey_option, List.cons_append, List.nil_append,
          List.take_succ_cons]
        exact unpack_init_none_short _ (by rw [List.length_take, length_natToLe]; omega)
    | some key =>
      rcases k with _ | _ | j
      · rfl
      · rfl
      · have hj : j < 40 := by simp [minLen] at hk; omega
        simp only [pack, pack_pubkey_option, List.cons_append, List.take_succ_cons]
        exact unpack_init_some_short _ (by rw [List.length_take]; omega)

/-- Claim C4: truncation rejection — for every representable instruction
`c`, `unpack` applied to any prefix of `pack c` shorter than the minimum
length of c's layout (1 for `CloseFaucet`, 9 for `MintTokens`, 10 for
`InitFaucet` with admin absent, 42 with admin present) fails with the
`InvalidInstruction` error. -/
theorem claim_C4_truncation (c : FaucetInstruction) (_hc : ValidInstr c)
    (p : List Nat) (hp : p <+: pack c) (hlen : p.length < minLen c) :
    unpack p = .error .invalidInstruction := by
  obtain ⟨t, ht⟩ := hp
  have hpfx : p = (pack c).take p.length := by
    rw [← ht, List.take_append_of_le_length (le_refl _), List.take_length]
  rw [hpfx]
  exact unpack_take_pack_short c p.length hlen

theorem claim_C4_truncation_witness :
    ValidInstr .closeFaucet ∧ ([] : List Nat) <+: pack .closeFaucet ∧
      ([] : List Nat).length < minLen .closeFaucet ∧
      unpack [] = .error .invalidInstruction :=
  ⟨trivial, ⟨pack .closeFaucet, rfl⟩, by decide,
    claim_C4_truncation .closeFaucet trivial [] ⟨pack .closeFaucet, rfl⟩ (by decide)⟩

end Faucet
